import Mathlib

/-!
# Somfy RTS remote: frame construction, rolling code and transmission timing

A shallow embedding of `src/Somfy_Remote.cpp`.

* Machine integers are natural numbers; every conversion to `uint8_t` is an explicit
  `% 256` and every conversion to `uint16_t` an explicit `% 65536`.
* The frame `uint8_t frame[7]` is a `List Nat`.
* The EEPROM is a map from byte addresses to bytes; the radio line is observed as the list of
  `(level, microseconds)` pairs given to `digitalWrite` / `delayMicroseconds`.
-/

namespace Somfy

/-! ## Persistent store (EEPROM library, an external collaborator) -/

/-- Content of the EEPROM: the byte held at every address. -/
abbrev Store := Nat → Nat

/-- Modelled from the spec: the `EEPROM.get` of the platform library, which is no part of the
sources, for a 16-bit object: "read(offset, length) -> bytes", two bytes, low byte first as on
every supported target. -/
def eepromGet (e : Store) (address : Nat) : Nat :=
  e address % 256 + 256 * (e (address + 1) % 256)

/-- Modelled from the spec: the `EEPROM.put` of the platform library, which is no part of the
sources, for a 16-bit object: "write(offset, bytes)", two bytes, low byte first. -/
def eepromPut (e : Store) (address value : Nat) : Store :=
  fun a => if a = address then value % 256
    else if a = address + 1 then value / 256 % 256
    else e a

/-! ## Observable calls -/

/-- What `move` does to its collaborators, in the order of the calls: the EEPROM library, the
radio driver, and its own `sendCommand`. -/
inductive Event where
  | eepromBegin
  | eepromGet (address : Nat)
  | eepromPut (address value : Nat)
  | setTx
  | sendCommand (frame : List Nat) (sync : Nat)
  | setSidle
  | eepromCommit
  deriving DecidableEq

/-! ## The remote object -/

/-- Modelled from the spec: the class declaration of `SomfyRemote` (`Somfy_Remote.h` is no part
of the sources).  The private fields the methods use: the name, the remote code (32-bit, as the
constructor takes it), the rolling code (a 16-bit unsigned counter by the spec) and the EEPROM
address (16-bit, as `getNextEepromAddress` returns it). -/
structure SomfyRemote where
  name : String
  remoteCode : Nat
  rollingCode : Nat
  eepromAddress : Nat

/-- The constant `const uint16_t symbol = 604;`. -/
def symbol : Nat := 604

/-- The method `SomfyRemote::getNextEepromAddress`, on the global `uint8_t currentEppromAddress`:
returns the address handed out and the new value of the global. -/
def getNextEepromAddress (currentEppromAddress : Nat) : Nat × Nat :=
  let eppromAddress := currentEppromAddress % 256
  (eppromAddress, (currentEppromAddress + 4) % 256)

/-- The constructor `SomfyRemote::SomfyRemote(name, remoteCode)`: the object and the new value
of the global `currentEppromAddress`.  The constructor leaves `_rollingCode` unset; `garbage`
is the value the field happens to hold. -/
def construct (currentEppromAddress : Nat) (name : String) (remoteCode garbage : Nat) :
    SomfyRemote × Nat :=
  let r := getNextEepromAddress currentEppromAddress
  ({ name := name, remoteCode := remoteCode % 4294967296, rollingCode := garbage % 65536,
     eepromAddress := r.1 }, r.2)

/-- The instances obtained by constructing one `SomfyRemote` per `(name, remoteCode)` of the
list, in order, the global counter starting at `currentEppromAddress`. -/
def constructAll : Nat → List (String × Nat) → List SomfyRemote
  | _, [] => []
  | currentEppromAddress, (name, remoteCode) :: rest =>
    (construct currentEppromAddress name remoteCode 0).1 ::
      constructAll (construct currentEppromAddress name remoteCode 0).2 rest

/-- The storage slots of `n` instances constructed one after the other in a fresh program
(the global `currentEppromAddress` is initialised to 0). -/
def slots (n : Nat) : List Nat :=
  (constructAll 0 (List.replicate n ("blind", 0x123456))).map SomfyRemote.eepromAddress

/-- The method `SomfyRemote::getRollingCode`: `EEPROM.get` loads the field, and a loaded value below 1 is
replaced by 1. -/
def getRollingCode (r : SomfyRemote) (e : Store) : SomfyRemote :=
  let loaded := eepromGet e r.eepromAddress
  if loaded < 1 then { r with rollingCode := 1 } else { r with rollingCode := loaded }

/-- The calls made by `getRollingCode`. -/
def getRollingCodeTrace (r : SomfyRemote) : List Event := [Event.eepromGet r.eepromAddress]

/-! ## Frame construction -/

/-- The read `frame[i]`. -/
def getByte (frame : List Nat) (i : Nat) : Nat := frame.getD i 0

/-- The write `frame[i] = v` with the conversion to `uint8_t`. -/
def setByte (frame : List Nat) (i v : Nat) : List Nat := frame.set i (v % 256)

/-- The fields of the frame as `buildFrame` first fills them in (checksum nibble still 0). -/
def rawFrame (r : SomfyRemote) (command : Nat) : List Nat :=
  [0xA7, (command <<< 4) % 256, (r.rollingCode >>> 8) % 256, r.rollingCode % 256,
   (r.remoteCode >>> 16) % 256, (r.remoteCode >>> 8) % 256, r.remoteCode % 256]

/-- The checksum loop of `buildFrame` followed by `checksum &= 0b1111`. -/
def checksum (frame : List Nat) : Nat :=
  ((List.range 7).foldl
    (fun cs i => (cs ^^^ getByte frame i ^^^ (getByte frame i >>> 4)) % 256) 0) &&& 0b1111

/-- The statement `frame[1] |= checksum`. -/
def integrateChecksum (frame : List Nat) : List Nat :=
  setByte frame 1 (getByte frame 1 ||| checksum frame)

/-- The obfuscation loop of `buildFrame`: `for i = 1 .. 6: frame[i] ^= frame[i - 1]`. -/
def obfuscate (frame : List Nat) : List Nat :=
  (List.range' 1 6).foldl (fun f i => setByte f i (getByte f i ^^^ getByte f (i - 1))) frame

/-- The frame before obfuscation, checksum inserted. -/
def clearFrame (r : SomfyRemote) (command : Nat) : List Nat :=
  integrateChecksum (rawFrame r command)

/-- Result of `buildFrame`: the frame, the object and the EEPROM afterwards, and the calls
made. -/
structure Built where
  frame : List Nat
  remote : SomfyRemote
  store : Store
  trace : List Event

/-- The method `SomfyRemote::buildFrame(frame, command)`. -/
def buildFrame (r : SomfyRemote) (e : Store) (command : Nat) : Built :=
  let frame := obfuscate (clearFrame r command)
  let rollingCode := (r.rollingCode + 1) % 65536
  { frame := frame
    remote := { r with rollingCode := rollingCode }
    store := eepromPut e r.eepromAddress rollingCode
    trace := [Event.eepromPut r.eepromAddress rollingCode] }

/-- The receiver's side of the obfuscation: the chained XOR undone, the same rule
`frame[i] ^= frame[i - 1]` applied for `i = 6` down to `1`. -/
def deobfuscate (frame : List Nat) : List Nat :=
  [6, 5, 4, 3, 2, 1].foldl (fun f i => setByte f i (getByte f i ^^^ getByte f (i - 1))) frame

/-- XOR of the two nibbles of every byte of the frame, all fourteen XORed together. -/
def nibbleXor (frame : List Nat) : Nat :=
  frame.foldl (fun acc b => acc ^^^ (b >>> 4) ^^^ (b &&& 15)) 0

/-! ## Transmission -/

/-- One `digitalWrite(gdo2Pin, level)` followed by `delayMicroseconds(us)`: the level of the
line (`true` is `HIGH`) and the requested hold time. -/
abbrev Pulse := Bool × Nat

/-- The level `HIGH`. -/
abbrev HIGH : Bool := true

/-- The level `LOW`. -/
abbrev LOW : Bool := false

/-- The method `SomfyRemote::sendBit(value)`. -/
def sendBit (value : Bool) : List Pulse :=
  let firstState := if value = true then LOW else HIGH
  let secondState := if value = true then HIGH else LOW
  [(firstState, symbol), (secondState, symbol)]

/-- The data loop of `sendCommand`: `for i = 0 .. 55`, one `sendBit` for bit `7 - i % 8` of
`frame[i / 8]`, appended to what the line has carried so far. -/
def sendData (frame : List Nat) (line : List Pulse) : List Pulse :=
  (List.range 56).foldl
    (fun l i => l ++ sendBit (decide ((getByte frame (i / 8) >>> (7 - i % 8)) &&& 1 = 1))) line

/-- The method `SomfyRemote::sendCommand(frame, sync)`: everything written to the line, in order. -/
def sendCommand (frame : List Nat) (sync : Nat) : List Pulse :=
  let wake : List Pulse := if sync = 2 then [(HIGH, 9415), (LOW, 89565)] else []
  let hard := (List.range sync).foldl
    (fun l _ => l ++ [(HIGH, 4 * symbol), (LOW, 4 * symbol)]) wake
  let soft := hard ++ [(HIGH, 4550), (LOW, symbol)]
  let data := sendData frame soft
  data ++ [(LOW, 30415)]

/-! ## `move` -/

/-- The command code selected by the `switch` of `move` on `command[0]` after
`command.toUpperCase()`; the string is its list of characters, and indexing an empty Arduino
`String` yields the character 0. -/
def commandCode (command : List Char) : Nat :=
  let c := (command.map Char.toUpper).headD (Char.ofNat 0)
  if c = 'U' then 0x2
  else if c = 'D' then 0x4
  else if c = 'M' then 0x1
  else if c = 'P' then 0x8
  else 0x1

/-- The loop `for (int i = 0; i < 2; i = i + 1) sendCommand(frame, 7);` of `move`. -/
def repeatFrames (frame : List Nat) (trace : List Event) : List Event :=
  (List.range 2).foldl (fun t _ => t ++ [Event.sendCommand frame 7]) trace

/-- Result of `move`: the object, the EEPROM, and the calls made. -/
structure Moved where
  remote : SomfyRemote
  store : Store
  trace : List Event

/-- The method `SomfyRemote::move(command)`. -/
def move (r : SomfyRemote) (e : Store) (command : List Char) : Moved :=
  let t0 := [Event.eepromBegin]
  let r1 := getRollingCode r e
  let t1 := t0 ++ getRollingCodeTrace r
  let b := buildFrame r1 e (commandCode command)
  let t2 := t1 ++ b.trace
  let t3 := t2 ++ [Event.setTx]
  let t4 := t3 ++ [Event.sendCommand b.frame 2]
  let t5 := repeatFrames b.frame t4
  let t6 := t5 ++ [Event.setSidle]
  { remote := b.remote, store := b.store, trace := t6 ++ [Event.eepromCommit] }

/-! ## The receiver's reading of the data section -/

/-- The level of the second half-symbol of every Manchester pair. -/
def secondHalves : List Pulse → List Bool
  | _ :: second :: rest => second.1 :: secondHalves rest
  | _ => []

/-- Eight bits, most significant first, as a number. -/
def packByte (bits : List Bool) : Nat :=
  bits.foldl (fun acc b => 2 * acc + (if b = true then 1 else 0)) 0

/-- The first `n` bytes packed from a list of bits. -/
def packBytes : Nat → List Bool → List Nat
  | 0, _ => []
  | n + 1, bits => packByte (bits.take 8) :: packBytes n (bits.drop 8)

/-- The bytes a receiver reads from a data section. -/
def decodeData (data : List Pulse) : List Nat := packBytes 7 (secondHalves data)

/-- The data section of what `sendCommand` puts on the line: the 112 pulses that follow the
wake-up (present for sync count 2 only), the hardware sync and the software sync. -/
def dataSection (frame : List Nat) (sync : Nat) : List Pulse :=
  ((sendCommand frame sync).drop (if sync = 2 then 2 * sync + 4 else 2 * sync + 2)).take 112

/-! ## Sequences of sends and what a receiver reads -/

/-- The frames handed to `sendCommand`, in the order of the calls. -/
def sentFrames : List Event → List (List Nat)
  | [] => []
  | Event.sendCommand frame _ :: rest => frame :: sentFrames rest
  | _ :: rest => sentFrames rest

/-- The rolling code a receiver reads from a frame: bytes 2..3 of the de-obfuscated frame,
big-endian. -/
def rollingCodeOf (frame : List Nat) : Nat :=
  getByte (deobfuscate frame) 2 * 256 + getByte (deobfuscate frame) 3

/-- The calls made by a sequence of `move` calls on the same remote, one per command, each
starting from the object and the EEPROM the previous one left. -/
def moveAll : SomfyRemote → Store → List (List Char) → List Event
  | _, _, [] => []
  | r, e, command :: rest =>
    (move r e command).trace ++ moveAll (move r e command).remote (move r e command).store rest

/-! ## The buffered EEPROM behind `EEPROM.begin` and `EEPROM.commit` -/

/-- Modelled from the spec: the persistent store collaborator (the platform's EEPROM library,
no part of the sources) in the buffered form that the calls `EEPROM.begin(EEPROM_SIZE)` and
`EEPROM.commit()` of `move` belong to: a working copy in RAM beside the persisted content. -/
structure Eeprom where
  ram : Store
  flash : Store

/-- Modelled from the spec: what one call does to the buffered EEPROM (the library is no part
of the sources): `begin` loads the persisted content into the RAM copy, `put` changes the RAM
copy, `commit` writes the RAM copy to the persisted content; `get` and the radio calls change
nothing. -/
def eepromStep (s : Eeprom) : Event → Eeprom
  | Event.eepromBegin => { s with ram := s.flash }
  | Event.eepromPut address value => { s with ram := eepromPut s.ram address value }
  | Event.eepromCommit => { s with flash := s.ram }
  | _ => s

/-- The persisted content once the calls of `trace` have been made, one after the other, on an
EEPROM whose persisted content was `e` and whose RAM copy held `ram`. -/
def persisted (e ram : Store) (trace : List Event) : Store :=
  (trace.foldl eepromStep { ram := ram, flash := e }).flash

/-! ## Auxiliary definitions used in the proofs -/

/-- XOR of the two nibbles of one byte. -/
def nib (b : Nat) : Nat := (b >>> 4) ^^^ (b &&& 15)

/-- The two half-symbols `sendCommand` sends for bit `i` (0 .. 55) of the frame. -/
def bitPulses (frame : List Nat) (i : Nat) : List Pulse :=
  sendBit (decide ((getByte frame (i / 8) >>> (7 - i % 8)) &&& 1 = 1))

/-! ## Lemmas on the frame -/

theorem obfuscate_cons7 (a b c d e f g : Nat) :
    obfuscate [a, b, c, d, e, f, g] =
      [a, (b ^^^ a) % 256, (c ^^^ (b ^^^ a) % 256) % 256,
       (d ^^^ (c ^^^ (b ^^^ a) % 256) % 256) % 256,
       (e ^^^ (d ^^^ (c ^^^ (b ^^^ a) % 256) % 256) % 256) % 256,
       (f ^^^ (e ^^^ (d ^^^ (c ^^^ (b ^^^ a) % 256) % 256) % 256) % 256) % 256,
       (g ^^^ (f ^^^ (e ^^^ (d ^^^ (c ^^^ (b ^^^ a) % 256) % 256) % 256) % 256) % 256) % 256] := by
  simp [obfuscate, setByte, getByte, List.range', List.foldl]

theorem deobfuscate_cons7 (a b c d e f g : Nat) :
    deobfuscate [a, b, c, d, e, f, g] =
      [a, (b ^^^ a) % 256, (c ^^^ b) % 256, (d ^^^ c) % 256, (e ^^^ d) % 256,
       (f ^^^ e) % 256, (g ^^^ f) % 256] := by
  simp [deobfuscate, setByte, getByte, List.foldl]

theorem xor_byte_lt {a b : Nat} (ha : a < 256) (hb : b < 256) : a ^^^ b < 256 :=
  Nat.xor_lt_two_pow (n := 8) ha hb

theorem xor_cancel_right (a b : Nat) : (a ^^^ b) ^^^ b = a := by
  rw [Nat.xor_assoc, Nat.xor_self, Nat.xor_zero]

/-- A list of seven bytes, spelled out. -/
theorem seven_bytes (p : List Nat) (hlen : p.length = 7) :
    ∃ a b c d e f g, p = [a, b, c, d, e, f, g] := by
  match p, hlen with
  | [a, b, c, d, e, f, g], _ => exact ⟨a, b, c, d, e, f, g, rfl⟩

theorem deobfuscate_obfuscate_cons7 (a b c d e f g : Nat) (hb : b < 256) (hc : c < 256)
    (hd : d < 256) (he : e < 256) (hf : f < 256) (hg : g < 256) (ha : a < 256) :
    deobfuscate (obfuscate [a, b, c, d, e, f, g]) = [a, b, c, d, e, f, g] := by
  have h1 : (b ^^^ a) % 256 = b ^^^ a := Nat.mod_eq_of_lt (xor_byte_lt hb ha)
  have h2 : (c ^^^ (b ^^^ a)) % 256 = c ^^^ (b ^^^ a) :=
    Nat.mod_eq_of_lt (xor_byte_lt hc (xor_byte_lt hb ha))
  have h3 : (d ^^^ (c ^^^ (b ^^^ a))) % 256 = d ^^^ (c ^^^ (b ^^^ a)) :=
    Nat.mod_eq_of_lt (xor_byte_lt hd (xor_byte_lt hc (xor_byte_lt hb ha)))
  have h4 : (e ^^^ (d ^^^ (c ^^^ (b ^^^ a)))) % 256 = e ^^^ (d ^^^ (c ^^^ (b ^^^ a))) :=
    Nat.mod_eq_of_lt (xor_byte_lt he (xor_byte_lt hd (xor_byte_lt hc (xor_byte_lt hb ha))))
  have h5 : (f ^^^ (e ^^^ (d ^^^ (c ^^^ (b ^^^ a))))) % 256
      = f ^^^ (e ^^^ (d ^^^ (c ^^^ (b ^^^ a)))) :=
    Nat.mod_eq_of_lt
      (xor_byte_lt hf (xor_byte_lt he (xor_byte_lt hd (xor_byte_lt hc (xor_byte_lt hb ha)))))
  have h6 : (g ^^^ (f ^^^ (e ^^^ (d ^^^ (c ^^^ (b ^^^ a)))))) % 256
      = g ^^^ (f ^^^ (e ^^^ (d ^^^ (c ^^^ (b ^^^ a))))) :=
    Nat.mod_eq_of_lt (xor_byte_lt hg
      (xor_byte_lt hf (xor_byte_lt he (xor_byte_lt hd (xor_byte_lt hc (xor_byte_lt hb ha))))))
  rw [obfuscate_cons7, deobfuscate_cons7]
  simp only [h1, h2, h3, h4, h5, h6, xor_cancel_right, Nat.mod_eq_of_lt hb, Nat.mod_eq_of_lt hc,
    Nat.mod_eq_of_lt hd, Nat.mod_eq_of_lt he, Nat.mod_eq_of_lt hf, Nat.mod_eq_of_lt hg]

set_option maxRecDepth 100000 in
theorem nib_of_byte : ∀ b < 256, (b ^^^ (b >>> 4)) &&& 15 = (b >>> 4) ^^^ (b &&& 15) := by
  decide

set_option maxRecDepth 100000 in
theorem nib_insert : ∀ h < 16, ∀ cs < 16,
    (((h * 16 ||| cs) % 256) >>> 4) ^^^ (((h * 16 ||| cs) % 256) &&& 15) = h ^^^ cs := by
  decide

theorem xor7_cancel (a h b c d e f : Nat) :
    a ^^^ (h ^^^ (a ^^^ h ^^^ b ^^^ c ^^^ d ^^^ e ^^^ f)) ^^^ b ^^^ c ^^^ d ^^^ e ^^^ f = 0 := by
  apply Nat.eq_of_testBit_eq
  intro i
  simp only [Nat.testBit_xor, Nat.zero_testBit]
  generalize a.testBit i = x0
  generalize h.testBit i = x1
  generalize b.testBit i = x2
  generalize c.testBit i = x3
  generalize d.testBit i = x4
  generalize e.testBit i = x5
  generalize f.testBit i = x6
  revert x0 x1 x2 x3 x4 x5 x6
  decide


theorem checksum_step {cs f : Nat} (hcs : cs < 256) (hf : f < 256) :
    (cs ^^^ f ^^^ (f >>> 4)) % 256 < 256 ∧
      ((cs ^^^ f ^^^ (f >>> 4)) % 256) &&& 15 = (cs &&& 15) ^^^ nib f := by
  have hs : f >>> 4 < 256 := by
    rw [Nat.shiftRight_eq_div_pow]; omega
  have hlt : cs ^^^ f ^^^ (f >>> 4) < 256 := xor_byte_lt (xor_byte_lt hcs hf) hs
  refine ⟨Nat.mod_lt _ (by decide), ?_⟩
  rw [Nat.mod_eq_of_lt hlt, Nat.xor_assoc, Nat.and_xor_distrib_right, nib_of_byte f hf, nib]

theorem checksum_cons7 (a b c d e f g : Nat) (ha : a < 256) (hb : b < 256) (hc : c < 256)
    (hd : d < 256) (he : e < 256) (hf : f < 256) (hg : g < 256) :
    checksum [a, b, c, d, e, f, g]
      = nib a ^^^ nib b ^^^ nib c ^^^ nib d ^^^ nib e ^^^ nib f ^^^ nib g := by
  have h0 := checksum_step (show 0 < 256 by decide) ha
  have h1 := checksum_step h0.1 hb
  have h2 := checksum_step h1.1 hc
  have h3 := checksum_step h2.1 hd
  have h4 := checksum_step h3.1 he
  have h5 := checksum_step h4.1 hf
  have h6 := checksum_step h5.1 hg
  have hr : List.range 7 = [0, 1, 2, 3, 4, 5, 6] := rfl
  simp only [checksum, hr, List.foldl, getByte, List.getD_cons_zero, List.getD_cons_succ]
  rw [h6.2, h5.2, h4.2, h3.2, h2.2, h1.2, h0.2]
  simp

theorem nibbleXor_cons7 (a b c d e f g : Nat) :
    nibbleXor [a, b, c, d, e, f, g]
      = nib a ^^^ nib b ^^^ nib c ^^^ nib d ^^^ nib e ^^^ nib f ^^^ nib g := by
  simp [nibbleXor, nib, Nat.xor_assoc]

theorem clearFrame_eq (r : SomfyRemote) (command : Nat) :
    clearFrame r command =
      [0xA7, ((command <<< 4) % 256 ||| checksum (rawFrame r command)) % 256,
       (r.rollingCode >>> 8) % 256, r.rollingCode % 256,
       (r.remoteCode >>> 16) % 256, (r.remoteCode >>> 8) % 256, r.remoteCode % 256] := by
  simp [clearFrame, integrateChecksum, setByte, getByte, rawFrame]

theorem command_shift (command : Nat) : (command <<< 4) % 256 = (command % 16) * 16 := by
  rw [Nat.shiftLeft_eq]; omega

theorem checksum_lt (frame : List Nat) : checksum frame < 16 :=
  lt_of_le_of_lt Nat.and_le_right (by decide)

theorem nib_shifted : ∀ h < 16, nib (h * 16) = h := by decide

theorem nibbleXor_clearFrame (r : SomfyRemote) (command : Nat) :
    nibbleXor (clearFrame r command) = 0 := by
  have hm : ∀ x : Nat, x % 256 < 256 := fun x => Nat.mod_lt _ (by decide)
  have hh : command % 16 < 16 := Nat.mod_lt _ (by decide)
  have hcs : checksum (rawFrame r command)
      = nib 0xA7 ^^^ nib ((command % 16) * 16) ^^^ nib ((r.rollingCode >>> 8) % 256)
        ^^^ nib (r.rollingCode % 256) ^^^ nib ((r.remoteCode >>> 16) % 256)
        ^^^ nib ((r.remoteCode >>> 8) % 256) ^^^ nib (r.remoteCode % 256) := by
    rw [← command_shift]
    exact checksum_cons7 _ _ _ _ _ _ _ (by decide) (hm _) (hm _) (hm _) (hm _) (hm _) (hm _)
  have hins := nib_insert (command % 16) hh (checksum (rawFrame r command)) (checksum_lt _)
  rw [clearFrame_eq, nibbleXor_cons7, command_shift]
  unfold nib at hins
  rw [show nib ((command % 16 * 16 ||| checksum (rawFrame r command)) % 256)
      = command % 16 ^^^ checksum (rawFrame r command) from hins]
  rw [hcs, nib_shifted _ hh]
  exact xor7_cancel _ _ _ _ _ _ _

theorem clearFrame_bytes (r : SomfyRemote) (command : Nat) :
    ∃ b c d e f g, clearFrame r command = [0xA7, b, c, d, e, f, g] ∧
      b < 256 ∧ c < 256 ∧ d < 256 ∧ e < 256 ∧ f < 256 ∧ g < 256 :=
  ⟨_, _, _, _, _, _, clearFrame_eq r command, Nat.mod_lt _ (by decide),
    Nat.mod_lt _ (by decide), Nat.mod_lt _ (by decide), Nat.mod_lt _ (by decide),
    Nat.mod_lt _ (by decide), Nat.mod_lt _ (by decide)⟩

/-- De-obfuscating the frame of `buildFrame` gives back the frame before obfuscation. -/
theorem deobfuscate_buildFrame (r : SomfyRemote) (e : Store) (command : Nat) :
    deobfuscate (buildFrame r e command).frame = clearFrame r command := by
  obtain ⟨b, c, d, e', f, g, h, hb, hc, hd, he, hf, hg⟩ := clearFrame_bytes r command
  show deobfuscate (obfuscate (clearFrame r command)) = clearFrame r command
  rw [h]
  exact deobfuscate_obfuscate_cons7 _ _ _ _ _ _ _ hb hc hd he hf hg (by decide)

theorem high_nibble_insert : ∀ h < 16, ∀ cs < 16, ((h * 16 ||| cs) % 256) >>> 4 = h := by
  decide

theorem eepromGet_eepromPut (e : Store) (address value : Nat) :
    eepromGet (eepromPut e address value) address = value % 65536 := by
  have h : address + 1 ≠ address := Nat.succ_ne_self address
  simp only [eepromGet, eepromPut, if_true, if_neg h]
  omega

/-! ## Lemmas on the transmission and on `move` -/

theorem foldl_append_range {α : Type} (body : Nat → List α) (init : List α) (n : Nat) :
    (List.range n).foldl (fun l i => l ++ body i) init
      = init ++ (List.range n).flatMap body := by
  induction n with
  | zero => simp
  | succ n ih => simp [List.range_succ, List.foldl_append, ih, List.flatMap_append]

theorem flatMap_range_const {α : Type} (c : List α) (n : Nat) :
    (List.range n).flatMap (fun _ => c) = (List.replicate n c).flatten := by
  induction n with
  | zero => simp
  | succ n ih => simp [List.range_succ, List.flatMap_append, ih, List.replicate_succ']

theorem length_flatMap_range_two {α : Type} (body : Nat → List α)
    (hlen : ∀ i, (body i).length = 2) (n : Nat) :
    ((List.range n).flatMap body).length = 2 * n := by
  induction n with
  | zero => simp
  | succ n ih =>
    simp only [List.range_succ, List.flatMap_append, List.length_append, ih,
      List.flatMap_singleton, hlen]
    omega

theorem getD_flatMap_range_two {α : Type} (body : Nat → List α)
    (hlen : ∀ i, (body i).length = 2) (d : α) (n k j : Nat) (hk : k < n) (hj : j < 2) :
    ((List.range n).flatMap body).getD (2 * k + j) d = (body k).getD j d := by
  induction n with
  | zero => omega
  | succ n ih =>
    have hl := length_flatMap_range_two body hlen n
    simp only [List.range_succ, List.flatMap_append, List.flatMap_singleton]
    by_cases hkn : k < n
    · rw [List.getD_append _ _ _ _ (by omega)]
      exact ih hkn
    · have hkeq : k = n := by omega
      subst hkeq
      rw [List.getD_append_right _ _ _ _ (by omega), hl]
      congr 1
      omega

theorem sendData_eq (frame : List Nat) (line : List Pulse) :
    sendData frame line = line ++ (List.range 56).flatMap (bitPulses frame) := by
  unfold sendData
  exact foldl_append_range (bitPulses frame) line 56

theorem bitPulses_eq (frame : List Nat) (i : Nat) :
    bitPulses frame i = [(!(getByte frame (i / 8)).testBit (7 - i % 8), 604),
      ((getByte frame (i / 8)).testBit (7 - i % 8), 604)] := by
  simp [bitPulses, sendBit, symbol]


theorem length_sendData (frame : List Nat) : (sendData frame []).length = 112 := by
  rw [sendData_eq, List.nil_append,
    length_flatMap_range_two _ (fun i => by rw [bitPulses_eq]; rfl)]

theorem hardwareSync_eq (wake : List Pulse) (n : Nat) :
    (List.range n).foldl (fun l _ => l ++ [(HIGH, 4 * symbol), (LOW, 4 * symbol)]) wake
      = wake ++ (List.replicate n [(HIGH, 2416), (LOW, 2416)]).flatten := by
  rw [foldl_append_range (fun _ => [(HIGH, 4 * symbol), (LOW, 4 * symbol)]),
    flatMap_range_const]
  rfl

/-- Everything `sendCommand` writes, section by section. -/
theorem sendCommand_eq (frame : List Nat) (n : Nat) :
    sendCommand frame n =
      (if n = 2 then [(HIGH, 9415), (LOW, 89565)] else [])
        ++ (List.replicate n [(HIGH, 2416), (LOW, 2416)]).flatten
        ++ [(HIGH, 4550), (LOW, 604)]
        ++ sendData frame []
        ++ [(LOW, 30415)] := by
  unfold sendCommand
  simp only []
  rw [hardwareSync_eq, sendData_eq, sendData_eq frame [], List.nil_append]
  rfl

theorem length_sync (n : Nat) :
    ((List.replicate n [((HIGH : Bool), 2416), (LOW, 2416)]).flatten).length = 2 * n := by
  induction n with
  | zero => rfl
  | succ n ih => simp [List.replicate_succ, ih]; omega


theorem dataSection_eq (frame : List Nat) (n : Nat) :
    dataSection frame n = sendData frame [] := by
  have hpre : ((if n = 2 then [((HIGH : Bool), 9415), (LOW, 89565)] else [])
        ++ (List.replicate n [(HIGH, 2416), (LOW, 2416)]).flatten
        ++ [(HIGH, 4550), (LOW, 604)]).length = (if n = 2 then 2 * n + 4 else 2 * n + 2) := by
    simp only [List.length_append, length_sync]
    split <;> simp +arith
  unfold dataSection
  rw [sendCommand_eq, List.append_assoc _ (sendData frame []), List.drop_left' hpre,
    List.take_left' (length_sendData frame)]

set_option maxRecDepth 100000 in
theorem packByte_bits : ∀ a < 256,
    packByte [a.testBit 7, a.testBit 6, a.testBit 5, a.testBit 4, a.testBit 3, a.testBit 2,
      a.testBit 1, decide (a % 2 = 1)] = a := by
  decide

set_option maxRecDepth 100000 in
theorem decodeData_sendData_cons7 (a b c d e f g : Nat) (ha : a < 256) (hb : b < 256)
    (hc : c < 256) (hd : d < 256) (he : e < 256) (hf : f < 256) (hg : g < 256) :
    decodeData (sendData [a, b, c, d, e, f, g] []) = [a, b, c, d, e, f, g] := by
  have hr : List.range 56 = [0, 1, 2, 3, 4, 5, 6, 7, 8, 9, 10, 11, 12, 13, 14, 15, 16, 17, 18,
      19, 20, 21, 22, 23, 24, 25, 26, 27, 28, 29, 30, 31, 32, 33, 34, 35, 36, 37, 38, 39, 40,
      41, 42, 43, 44, 45, 46, 47, 48, 49, 50, 51, 52, 53, 54, 55] := by decide
  rw [sendData_eq, hr]
  simp only [bitPulses, sendBit, getByte, decodeData, secondHalves, packBytes]
  simp
  exact ⟨packByte_bits a ha, packByte_bits b hb, packByte_bits c hc, packByte_bits d hd,
    packByte_bits e he, packByte_bits f hf, packByte_bits g hg⟩

theorem getRollingCode_eepromAddress (r : SomfyRemote) (e : Store) :
    (getRollingCode r e).eepromAddress = r.eepromAddress := by
  simp only [getRollingCode]
  split <;> rfl

theorem getRollingCode_rollingCode (r : SomfyRemote) (e : Store) :
    (getRollingCode r e).rollingCode
      = if eepromGet e r.eepromAddress = 0 then 1 else eepromGet e r.eepromAddress := by
  simp only [getRollingCode]
  by_cases h : eepromGet e r.eepromAddress = 0
  · simp [h]
  · have h1 : ¬ eepromGet e r.eepromAddress < 1 := by omega
    simp [h, h1]

theorem move_store (r : SomfyRemote) (e : Store) (command : List Char) :
    (move r e command).store
      = eepromPut e r.eepromAddress (((getRollingCode r e).rollingCode + 1) % 65536) := by
  show eepromPut e (getRollingCode r e).eepromAddress _ = _
  rw [getRollingCode_eepromAddress]

theorem move_eepromAddress (r : SomfyRemote) (e : Store) (command : List Char) :
    (move r e command).remote.eepromAddress = r.eepromAddress :=
  getRollingCode_eepromAddress r e

theorem move_rollingCode (r : SomfyRemote) (e : Store) (command : List Char) :
    (move r e command).remote.rollingCode = ((getRollingCode r e).rollingCode + 1) % 65536 :=
  rfl

theorem getRollingCode_after_move (r : SomfyRemote) (e : Store) (command : List Char) :
    (getRollingCode (move r e command).remote (move r e command).store).rollingCode
      = if (move r e command).remote.rollingCode = 0 then 1
        else (move r e command).remote.rollingCode := by
  rw [getRollingCode_rollingCode, move_store, move_eepromAddress, eepromGet_eepromPut,
    move_rollingCode, Nat.mod_mod]

theorem mem_sendData_duration (frame : List Nat) (p : Pulse) (hp : p ∈ sendData frame []) :
    p.2 = 604 := by
  rw [sendData_eq, List.nil_append, List.mem_flatMap] at hp
  obtain ⟨i, _, hi⟩ := hp
  rw [bitPulses_eq] at hi
  simp only [List.mem_cons, List.mem_singleton, List.not_mem_nil, or_false] at hi
  rcases hi with h | h <;> rw [h]

theorem wake_not_mem_sync (n : Nat) :
    ((HIGH : Bool), 9415) ∉ (List.replicate n [((HIGH : Bool), 2416), (LOW, 2416)]).flatten := by
  intro h
  rw [List.mem_flatten] at h
  obtain ⟨l, hl, hp⟩ := h
  rw [List.eq_of_mem_replicate hl] at hp
  revert hp
  decide

/-- The wake-up pulse is on the line exactly for sync count 2. -/
theorem wake_mem_sendCommand (frame : List Nat) (n : Nat) :
    ((HIGH : Bool), 9415) ∈ sendCommand frame n ↔ n = 2 := by
  rw [sendCommand_eq]
  constructor
  · intro h
    by_contra hn
    rw [if_neg hn] at h
    simp only [List.nil_append, List.mem_append, List.mem_cons, List.mem_singleton,
      List.not_mem_nil, or_false] at h
    rcases h with ((h | h) | h) | h
    · exact wake_not_mem_sync n h
    · revert h; decide
    · have := mem_sendData_duration frame _ h
      revert this; decide
    · revert h; decide
  · intro hn
    rw [if_pos hn]
    simp

theorem length_buildFrame (r : SomfyRemote) (e : Store) (command : Nat) :
    (buildFrame r e command).frame.length = 7 := by
  show (obfuscate (clearFrame r command)).length = 7
  rw [clearFrame_eq, obfuscate_cons7]
  rfl

theorem move_trace (r : SomfyRemote) (e : Store) (command : List Char) :
    (move r e command).trace =
      [Event.eepromBegin,
       Event.eepromGet r.eepromAddress,
       Event.eepromPut r.eepromAddress (((getRollingCode r e).rollingCode + 1) % 65536),
       Event.setTx,
       Event.sendCommand (buildFrame (getRollingCode r e) e (commandCode command)).frame 2,
       Event.sendCommand (buildFrame (getRollingCode r e) e (commandCode command)).frame 7,
       Event.sendCommand (buildFrame (getRollingCode r e) e (commandCode command)).frame 7,
       Event.setSidle,
       Event.eepromCommit] := by
  have hr : List.range 2 = [0, 1] := rfl
  simp only [move, repeatFrames, getRollingCodeTrace, hr, List.foldl, buildFrame,
    getRollingCode_eepromAddress, List.cons_append, List.nil_append, List.append_assoc]

/-! ## Lemmas on the command, the slots and the durations -/

theorem getByte_setByte_ne (f : List Nat) (i v j : Nat) (h : i ≠ j) :
    getByte (setByte f i v) j = getByte f j := by
  simp [getByte, setByte, List.getD_eq_getElem?_getD, List.getElem?_set_ne h]

/-- The obfuscation loop leaves `frame[0]` as it is, whatever the frame. -/
theorem getByte_obfuscate_zero (p : List Nat) : getByte (obfuscate p) 0 = getByte p 0 := by
  have hr : List.range' 1 6 = [1, 2, 3, 4, 5, 6] := rfl
  simp only [obfuscate, hr, List.foldl]
  rw [getByte_setByte_ne _ _ _ _ (by decide), getByte_setByte_ne _ _ _ _ (by decide),
    getByte_setByte_ne _ _ _ _ (by decide), getByte_setByte_ne _ _ _ _ (by decide),
    getByte_setByte_ne _ _ _ _ (by decide), getByte_setByte_ne _ _ _ _ (by decide)]

theorem eepromGet_lt (e : Store) (address : Nat) : eepromGet e address < 65536 := by
  unfold eepromGet
  omega

theorem getRollingCode_pos (r : SomfyRemote) (e : Store) :
    1 ≤ (getRollingCode r e).rollingCode ∧ (getRollingCode r e).rollingCode < 65536 := by
  rw [getRollingCode_rollingCode]
  have := eepromGet_lt e r.eepromAddress
  split <;> omega

theorem commandCode_of_head (c : Char) (rest : List Char) :
    commandCode (c :: rest) = commandCode [c] := rfl

theorem commandCode_other (command : List Char)
    (hU : (command.map Char.toUpper).headD (Char.ofNat 0) ≠ 'U')
    (hD : (command.map Char.toUpper).headD (Char.ofNat 0) ≠ 'D')
    (hP : (command.map Char.toUpper).headD (Char.ofNat 0) ≠ 'P') :
    commandCode command = 0x1 := by
  simp only [commandCode, if_neg hU, if_neg hD, if_neg hP, ite_self]

theorem commandCode_toUpper (c d : Char) (rest tail : List Char)
    (h : c.toUpper = d.toUpper) : commandCode (c :: rest) = commandCode (d :: tail) := by
  simp only [commandCode, List.map_cons, List.headD_cons, h]

theorem move_commandCode (r : SomfyRemote) (e : Store) (first second : List Char)
    (h : commandCode first = commandCode second) : move r e first = move r e second := by
  simp only [move, h]

theorem sentFrames_append (s t : List Event) :
    sentFrames (s ++ t) = sentFrames s ++ sentFrames t := by
  induction s with
  | nil => rfl
  | cons ev s ih => cases ev <;> simp [sentFrames, ih]

theorem sentFrames_move (r : SomfyRemote) (e : Store) (command : List Char) :
    sentFrames (move r e command).trace =
      [(buildFrame (getRollingCode r e) e (commandCode command)).frame,
       (buildFrame (getRollingCode r e) e (commandCode command)).frame,
       (buildFrame (getRollingCode r e) e (commandCode command)).frame] := by
  rw [move_trace]
  rfl

theorem rollingCodeOf_buildFrame (r : SomfyRemote) (e : Store) (command : Nat)
    (h : r.rollingCode < 65536) : rollingCodeOf (buildFrame r e command).frame = r.rollingCode := by
  unfold rollingCodeOf
  rw [deobfuscate_buildFrame, clearFrame_eq]
  simp only [getByte, List.getD_cons_zero, List.getD_cons_succ, Nat.shiftRight_eq_div_pow]
  omega

theorem rollingCodeOf_move (r : SomfyRemote) (e : Store) (command : List Char) :
    rollingCodeOf (buildFrame (getRollingCode r e) e (commandCode command)).frame
      = (getRollingCode r e).rollingCode :=
  rollingCodeOf_buildFrame _ e _ (getRollingCode_pos r e).2

theorem rollingCodeOf_moveAll (commands : List (List Char)) :
    ∀ (r : SomfyRemote) (e : Store), ∀ frame ∈ sentFrames (moveAll r e commands),
      1 ≤ rollingCodeOf frame := by
  induction commands with
  | nil => intro r e frame h; simp [moveAll, sentFrames] at h
  | cons command rest ih =>
    intro r e frame h
    rw [moveAll, sentFrames_append, List.mem_append, sentFrames_move] at h
    rcases h with h | h
    · simp only [List.mem_cons, List.mem_singleton, List.not_mem_nil, or_false, or_self] at h
      rw [h, rollingCodeOf_move]
      exact (getRollingCode_pos r e).1
    · exact ih _ _ frame h

/-- The slot handed out keeps the counter a multiple of 4 below 256. -/
theorem getNextEepromAddress_inv (c : Nat) (hc : c % 4 = 0) :
    (getNextEepromAddress c).1 % 4 = 0 ∧ (getNextEepromAddress c).1 + 4 ≤ 256 ∧
      (getNextEepromAddress c).2 % 4 = 0 := by
  simp only [getNextEepromAddress]
  omega

theorem constructAll_inv (args : List (String × Nat)) :
    ∀ c, c % 4 = 0 → ∀ r ∈ constructAll c args,
      r.eepromAddress % 4 = 0 ∧ r.eepromAddress + 4 ≤ 256 := by
  induction args with
  | nil => intro c _ r h; simp [constructAll] at h
  | cons a rest ih =>
    intro c hc r h
    obtain ⟨name, code⟩ := a
    have hinv := getNextEepromAddress_inv c hc
    rw [constructAll, List.mem_cons] at h
    rcases h with h | h
    · rw [h]
      exact ⟨hinv.1, hinv.2.1⟩
    · exact ih _ hinv.2.2 r h

theorem mem_sync_duration (n : Nat) (p : Pulse)
    (hp : p ∈ (List.replicate n [((HIGH : Bool), 2416), (LOW, 2416)]).flatten) : p.2 = 2416 := by
  rw [List.mem_flatten] at hp
  obtain ⟨l, hl, hpl⟩ := hp
  rw [List.eq_of_mem_replicate hl] at hpl
  simp only [List.mem_cons, List.mem_singleton, List.not_mem_nil, or_false] at hpl
  rcases hpl with h | h <;> rw [h]

/-- Every pulse of `sendCommand` is a wake-up pulse (sync count 2 only) or lasts at most
30415 microseconds. -/
theorem mem_sendCommand_duration (frame : List Nat) (n : Nat) (p : Pulse)
    (hp : p ∈ sendCommand frame n) :
    (n = 2 ∧ (p = (HIGH, 9415) ∨ p = (LOW, 89565))) ∨ p.2 ≤ 30415 := by
  rw [sendCommand_eq] at hp
  simp only [List.mem_append, List.mem_cons, List.mem_singleton, List.not_mem_nil,
    or_false] at hp
  rcases hp with (((h | h) | h) | h) | h
  · by_cases hn : n = 2
    · rw [if_pos hn] at h
      simp only [List.mem_cons, List.mem_singleton, List.not_mem_nil, or_false] at h
      exact Or.inl ⟨hn, h⟩
    · rw [if_neg hn] at h
      exact absurd h (List.not_mem_nil _)
  · right
    rw [mem_sync_duration n p h]
    decide
  · right
    rcases h with h | h <;> rw [h] <;> decide
  · right
    rw [mem_sendData_duration frame p h]
    decide
  · right
    rw [h]

theorem flash_foldl_eepromStep (t : List Event) :
    ∀ s : Eeprom, Event.eepromCommit ∉ t → (t.foldl eepromStep s).flash = s.flash := by
  induction t with
  | nil => intro s _; rfl
  | cons ev t ih =>
    intro s h
    rw [List.mem_cons, not_or] at h
    rw [List.foldl_cons, ih _ h.2]
    cases ev <;> first | rfl | exact absurd rfl h.1

/-! ## The claims -/

/-- C1: for every command code (0x1, 0x2, 0x4 and 0x8 among them), every rolling code and
every remote address, the frame produced by `buildFrame`, once de-obfuscated, is the 7-byte
frame before obfuscation with the checksum inserted, and the XOR of its 14 nibbles is 0. -/
theorem C1_nibble_xor_zero (r : SomfyRemote) (e : Store) (command : Nat) :
    deobfuscate (buildFrame r e command).frame = clearFrame r command ∧
      (deobfuscate (buildFrame r e command).frame).length = 7 ∧
      nibbleXor (deobfuscate (buildFrame r e command).frame) = 0 := by
  rw [deobfuscate_buildFrame]
  refine ⟨rfl, ?_, nibbleXor_clearFrame r command⟩
  rw [clearFrame_eq]
  rfl

/-- C2: for a command code `c` in {0x1, 0x2, 0x4, 0x8}, a 16-bit rolling code `rc` and
every remote address `a` (every 32-bit one among them), the de-obfuscated frame of `buildFrame` has `c` in the high nibble
of byte 1, `rc` big-endian in bytes 2..3 and the low 24 bits of `a` big-endian in bytes 4..6;
so `c`, `rc` and `a mod 2^24` are recovered from the frame, and the frame built for `a` is the
frame built for `a mod 2^24`. -/
theorem C2_fields_recoverable (r : SomfyRemote) (e : Store) (command : Nat)
    (hc : command = 0x1 ∨ command = 0x2 ∨ command = 0x4 ∨ command = 0x8)
    (hrc : r.rollingCode < 65536) :
    getByte (deobfuscate (buildFrame r e command).frame) 1 >>> 4 = command ∧
      getByte (deobfuscate (buildFrame r e command).frame) 2 = r.rollingCode / 256 ∧
      getByte (deobfuscate (buildFrame r e command).frame) 3 = r.rollingCode % 256 ∧
      getByte (deobfuscate (buildFrame r e command).frame) 2 * 256
        + getByte (deobfuscate (buildFrame r e command).frame) 3 = r.rollingCode ∧
      getByte (deobfuscate (buildFrame r e command).frame) 4
        = r.remoteCode % 16777216 / 65536 ∧
      getByte (deobfuscate (buildFrame r e command).frame) 5
        = r.remoteCode % 16777216 / 256 % 256 ∧
      getByte (deobfuscate (buildFrame r e command).frame) 6 = r.remoteCode % 16777216 % 256 ∧
      getByte (deobfuscate (buildFrame r e command).frame) 4 * 65536
        + getByte (deobfuscate (buildFrame r e command).frame) 5 * 256
        + getByte (deobfuscate (buildFrame r e command).frame) 6 = r.remoteCode % 16777216 ∧
      (buildFrame { r with remoteCode := r.remoteCode % 16777216 } e command).frame
        = (buildFrame r e command).frame := by
  have h16 : command % 16 = command := by omega
  have hhi := high_nibble_insert (command % 16) (Nat.mod_lt _ (by decide))
    (checksum (rawFrame r command)) (checksum_lt _)
  have hraw : rawFrame { r with remoteCode := r.remoteCode % 16777216 } command
      = rawFrame r command := by
    simp only [rawFrame, Nat.shiftRight_eq_div_pow]
    have h1 : r.remoteCode % 16777216 / 2 ^ 16 % 256 = r.remoteCode / 2 ^ 16 % 256 := by omega
    have h2 : r.remoteCode % 16777216 / 2 ^ 8 % 256 = r.remoteCode / 2 ^ 8 % 256 := by omega
    have h3 : r.remoteCode % 16777216 % 256 = r.remoteCode % 256 := by omega
    rw [h1, h2, h3]
  rw [deobfuscate_buildFrame, clearFrame_eq]
  simp only [getByte, List.getD_cons_zero, List.getD_cons_succ, command_shift,
    Nat.shiftRight_eq_div_pow] at hhi ⊢
  refine ⟨?_, ?_, ?_, ?_, ?_, ?_, ?_, ?_, ?_⟩
  · rw [hhi, h16]
  · omega
  · trivial
  · omega
  · omega
  · omega
  · omega
  · omega
  · show obfuscate (integrateChecksum (rawFrame _ command))
      = obfuscate (integrateChecksum (rawFrame r command))
    rw [hraw]

/-- Witness of C2: command UP, rolling code 1, remote address 0x123456. -/
theorem C2_fields_recoverable_witness :
    getByte (deobfuscate (buildFrame ⟨"blind", 0x123456, 1, 0⟩ (fun _ => 0) 0x2).frame) 1 >>> 4
        = 0x2 ∧
      getByte (deobfuscate (buildFrame ⟨"blind", 0x123456, 1, 0⟩ (fun _ => 0) 0x2).frame) 4
        = 0x12 :=
  have h := C2_fields_recoverable ⟨"blind", 0x123456, 1, 0⟩ (fun _ => 0) 0x2
    (Or.inr (Or.inl rfl)) (by decide)
  ⟨h.1, h.2.2.2.2.1⟩

/-- C3: for every 7-byte array `p`, the obfuscation of `buildFrame` followed by the same
chained-XOR rule in reverse index order returns exactly `p`; so de-obfuscating a built frame
reproduces the exact bytes before obfuscation. -/
theorem C3_deobfuscate_obfuscate (p : List Nat) (hlen : p.length = 7)
    (hbyte : ∀ b ∈ p, b < 256) :
    deobfuscate (obfuscate p) = p ∧
      ∀ (r : SomfyRemote) (e : Store) (command : Nat),
        deobfuscate (buildFrame r e command).frame = clearFrame r command := by
  refine ⟨?_, deobfuscate_buildFrame⟩
  obtain ⟨a, b, c, d, e, f, g, rfl⟩ := seven_bytes p hlen
  simp only [List.mem_cons, List.mem_singleton, List.not_mem_nil, or_false, forall_eq_or_imp,
    forall_eq] at hbyte
  obtain ⟨ha, hb, hc, hd, he, hf, hg⟩ := hbyte
  exact deobfuscate_obfuscate_cons7 a b c d e f g hb hc hd he hf hg ha

/-- Witness of C3: the seven bytes 0xA7, 0x29, 0x00, 0x01, 0x12, 0x34, 0x56. -/
theorem C3_deobfuscate_obfuscate_witness :
    deobfuscate (obfuscate [0xA7, 0x29, 0x00, 0x01, 0x12, 0x34, 0x56])
      = [0xA7, 0x29, 0x00, 0x01, 0x12, 0x34, 0x56] :=
  (C3_deobfuscate_obfuscate [0xA7, 0x29, 0x00, 0x01, 0x12, 0x34, 0x56] rfl (by decide)).1

/-- C4: for every rolling code `rc`, command and address, after `buildFrame` the rolling code
of the remote and the value stored in its EEPROM slot are both `(rc + 1) mod 2^16`; built with
`rc = 0xFFFF` both are 0. -/
theorem C4_rolling_code_incremented (r : SomfyRemote) (e : Store) (command : Nat) :
    (buildFrame r e command).remote.rollingCode = (r.rollingCode + 1) % 65536 ∧
      eepromGet (buildFrame r e command).store (buildFrame r e command).remote.eepromAddress
        = (r.rollingCode + 1) % 65536 ∧
      (buildFrame { r with rollingCode := 0xFFFF } e command).remote.rollingCode = 0 ∧
      eepromGet (buildFrame { r with rollingCode := 0xFFFF } e command).store r.eepromAddress
        = 0 := by
  refine ⟨rfl, ?_, by simp [buildFrame], ?_⟩
  · show eepromGet (eepromPut e r.eepromAddress ((r.rollingCode + 1) % 65536)) r.eepromAddress
      = (r.rollingCode + 1) % 65536
    rw [eepromGet_eepromPut]
    omega
  · show eepromGet (eepromPut e r.eepromAddress ((0xFFFF + 1) % 65536)) r.eepromAddress = 0
    rw [eepromGet_eepromPut]

/-- C5 (as stated, refuted): on a blank EEPROM (every byte 0xFF) the first `move` loads the
rolling code 0xFFFF and leaves the next rolling code 0, and the second `move` loads 1. -/
theorem C5_reload_counterexample :
    (getRollingCode ⟨"blind", 0x123456, 0, 0⟩ (fun _ => 0xFF)).rollingCode = 0xFFFF ∧
      (move ⟨"blind", 0x123456, 0, 0⟩ (fun _ => 0xFF) ['U']).remote.rollingCode = 0 ∧
      (getRollingCode (move ⟨"blind", 0x123456, 0, 0⟩ (fun _ => 0xFF) ['U']).remote
        (move ⟨"blind", 0x123456, 0, 0⟩ (fun _ => 0xFF) ['U']).store).rollingCode = 1 ∧
      (getRollingCode (move ⟨"blind", 0x123456, 0, 0⟩ (fun _ => 0xFF) ['U']).remote
        (move ⟨"blind", 0x123456, 0, 0⟩ (fun _ => 0xFF) ['U']).store).rollingCode
        ≠ (move ⟨"blind", 0x123456, 0, 0⟩ (fun _ => 0xFF) ['U']).remote.rollingCode := by
  decide

/-- C5 (amended): for every initial content of the EEPROM and any two commands, when `move` is
called twice in sequence on the same remote, the first call leaves the next rolling code (its
own rolling code plus 1, modulo 2^16), and the rolling code loaded by the second call is that
next rolling code when it is not 0, and 1 when it is 0. -/
theorem C5_reload_after_move (r : SomfyRemote) (e : Store) (first second : List Char) :
    (move r e first).remote.rollingCode = ((getRollingCode r e).rollingCode + 1) % 65536 ∧
      (getRollingCode (move r e first).remote (move r e first).store).rollingCode
        = (if (move r e first).remote.rollingCode = 0 then 1
           else (move r e first).remote.rollingCode) ∧
      (move (move r e first).remote (move r e first).store second).remote.rollingCode
        = ((if (move r e first).remote.rollingCode = 0 then 1
            else (move r e first).remote.rollingCode) + 1) % 65536 := by
  refine ⟨rfl, getRollingCode_after_move r e first, ?_⟩
  rw [move_rollingCode, getRollingCode_after_move]

set_option maxRecDepth 100000 in
/-- C6 (the code at the failing input): of 65 instances constructed in sequence, instance 64
receives slot 0, the slot of instance 0, and not 4 * 64; the slots handed out are not
pairwise distinct. -/
theorem C6_slot_reused :
    (slots 65).getD 0 1 = 0 ∧ (slots 65).getD 64 1 = 0 ∧ (slots 65).getD 63 1 = 252 ∧
      ¬ (slots 65).Nodup := by
  decide

/-- C7: for every command string and every state, one call of `move` makes, between `SetTx`
and `setSidle`, exactly three `sendCommand` calls: the first with sync count 2, then two with
sync count 7, all three with the same 7 frame bytes, the frame of the single `buildFrame`
(one `EEPROM.put`); the wake-up pulse opens the first and is absent from the other two. -/
theorem C7_three_frames (r : SomfyRemote) (e : Store) (command : List Char) :
    (move r e command).trace =
      [Event.eepromBegin,
       Event.eepromGet r.eepromAddress,
       Event.eepromPut r.eepromAddress (((getRollingCode r e).rollingCode + 1) % 65536),
       Event.setTx,
       Event.sendCommand (buildFrame (getRollingCode r e) e (commandCode command)).frame 2,
       Event.sendCommand (buildFrame (getRollingCode r e) e (commandCode command)).frame 7,
       Event.sendCommand (buildFrame (getRollingCode r e) e (commandCode command)).frame 7,
       Event.setSidle,
       Event.eepromCommit] ∧
      (buildFrame (getRollingCode r e) e (commandCode command)).frame.length = 7 ∧
      (sendCommand (buildFrame (getRollingCode r e) e (commandCode command)).frame 2).take 2
        = [(HIGH, 9415), (LOW, 89565)] ∧
      (HIGH, 9415) ∉ sendCommand (buildFrame (getRollingCode r e) e (commandCode command)).frame 7
      ∧ ∀ (frame : List Nat) (sync : Nat), (HIGH, 9415) ∈ sendCommand frame sync ↔ sync = 2 := by
  refine ⟨move_trace r e command, length_buildFrame _ _ _, ?_, ?_, wake_mem_sendCommand⟩
  · rw [sendCommand_eq]
    rfl
  · rw [wake_mem_sendCommand]
    decide

/-- C8: for every frame and every sync count `n`, the `(level, microseconds)` pairs emitted by
`sendCommand` are: the wake-up pair (high 9415, low 89565) if and only if `n = 2`; `n` times
(high 2416, low 2416); the software sync (high 4550, low 604); the 56 Manchester bits, each two
half-symbols of 604 microseconds at opposite levels; and a final (low 30415).  That is
`2n + 115` pairs without the wake-up and `2n + 117` with it. -/
theorem C8_pulse_sequence (frame : List Nat) (n : Nat) :
    sendCommand frame n =
      (if n = 2 then [(HIGH, 9415), (LOW, 89565)] else [])
        ++ (List.replicate n [(HIGH, 2416), (LOW, 2416)]).flatten
        ++ [(HIGH, 4550), (LOW, 604)]
        ++ (List.range 56).flatMap (fun k =>
            [(!(getByte frame (k / 8)).testBit (7 - k % 8), 604),
             ((getByte frame (k / 8)).testBit (7 - k % 8), 604)])
        ++ [(LOW, 30415)] ∧
      ((List.range 56).flatMap (fun k =>
            [(!(getByte frame (k / 8)).testBit (7 - k % 8), 604),
             ((getByte frame (k / 8)).testBit (7 - k % 8), 604)])).length = 112 ∧
      (sendCommand frame n).length = (if n = 2 then 2 * n + 117 else 2 * n + 115) ∧
      4 * symbol = 2416 := by
  have hdata : sendData frame [] = (List.range 56).flatMap (fun k =>
      [(!(getByte frame (k / 8)).testBit (7 - k % 8), 604),
       ((getByte frame (k / 8)).testBit (7 - k % 8), 604)]) := by
    rw [sendData_eq, List.nil_append]
    congr 1
    funext k
    exact bitPulses_eq frame k
  refine ⟨?_, ?_, ?_, rfl⟩
  · rw [sendCommand_eq, hdata]
  · rw [← hdata]
    exact length_sendData frame
  · rw [sendCommand_eq]
    simp only [List.length_append, length_sync, length_sendData]
    split <;> simp +arith

/-- C9: for every 7-byte frame, the data section emitted by `sendCommand` is 56 pairs of
half-symbols; pair `k` carries bit `7 - k mod 8` of `frame[k div 8]`, a 1 as (low, high) and a
0 as (high, low), both halves lasting 604 microseconds; and reading the second half of every
pair as the bit and packing the bits most significant first gives back the 7 frame bytes. -/
theorem C9_manchester_data (frame : List Nat) (sync : Nat) (hlen : frame.length = 7)
    (hbyte : ∀ b ∈ frame, b < 256) :
    (dataSection frame sync).length = 2 * 56 ∧
      (∀ k, k < 56 →
        (dataSection frame sync).getD (2 * k) (LOW, 0)
          = (!(getByte frame (k / 8)).testBit (7 - k % 8), 604) ∧
        (dataSection frame sync).getD (2 * k + 1) (LOW, 0)
          = ((getByte frame (k / 8)).testBit (7 - k % 8), 604)) ∧
      sendBit true = [(LOW, 604), (HIGH, 604)] ∧
      sendBit false = [(HIGH, 604), (LOW, 604)] ∧
      decodeData (dataSection frame sync) = frame := by
  rw [dataSection_eq]
  refine ⟨length_sendData frame, ?_, rfl, rfl, ?_⟩
  · intro k hk
    have hl : ∀ i, (bitPulses frame i).length = 2 := fun i => by rw [bitPulses_eq]; rfl
    have h0 := getD_flatMap_range_two (bitPulses frame) hl (LOW, 0) 56 k 0 hk (by decide)
    have h1 := getD_flatMap_range_two (bitPulses frame) hl (LOW, 0) 56 k 1 hk (by decide)
    rw [sendData_eq, List.nil_append]
    rw [bitPulses_eq] at h0 h1
    exact ⟨h0, h1⟩
  · obtain ⟨a, b, c, d, e, f, g, rfl⟩ := seven_bytes frame hlen
    simp only [List.mem_cons, List.mem_singleton, List.not_mem_nil, or_false,
      forall_eq_or_imp, forall_eq] at hbyte
    obtain ⟨ha, hb, hc, hd, he, hf, hg⟩ := hbyte
    exact decodeData_sendData_cons7 a b c d e f g ha hb hc hd he hf hg

/-- Witness of C9: the reference frame 0xA7 0x8E 0x8E 0x8F 0x9D 0xA9 0xFF sent with sync
count 2. -/
theorem C9_manchester_data_witness :
    decodeData (dataSection [0xA7, 0x8E, 0x8E, 0x8F, 0x9D, 0xA9, 0xFF] 2)
      = [0xA7, 0x8E, 0x8E, 0x8F, 0x9D, 0xA9, 0xFF] :=
  (C9_manchester_data [0xA7, 0x8E, 0x8E, 0x8F, 0x9D, 0xA9, 0xFF] 2 rfl (by decide)).2.2.2.2

/-- C10: for remote address 0x123456, rolling code 1 and command UP (code 0x2), the frame
before obfuscation is A7 29 00 01 12 34 56 (checksum nibble 9, bytes 4..6 are 12 34 56) and the
frame returned by `buildFrame` is A7 8E 8E 8F 9D A9 FF. -/
theorem C10_reference_vector (name : String) (slot : Nat) (e : Store) :
    commandCode ['U', 'P'] = 0x2 ∧
      checksum (rawFrame ⟨name, 0x123456, 1, slot⟩ 0x2) = 0x9 ∧
      clearFrame ⟨name, 0x123456, 1, slot⟩ 0x2 = [0xA7, 0x29, 0x00, 0x01, 0x12, 0x34, 0x56] ∧
      (buildFrame ⟨name, 0x123456, 1, slot⟩ e 0x2).frame
        = [0xA7, 0x8E, 0x8E, 0x8F, 0x9D, 0xA9, 0xFF] := by
  refine ⟨by decide, ?_, ?_, ?_⟩
  · simp only [rawFrame]
    decide
  · simp only [clearFrame, rawFrame]
    decide
  · simp only [buildFrame, clearFrame, rawFrame]
    decide

/-- C11: for every command code, rolling code and remote address, byte 0 of the frame
returned by `buildFrame` is 0xA7; the obfuscation loop never modifies `frame[0]`, whatever
the frame it is applied to. -/
theorem C11_first_byte (r : SomfyRemote) (e : Store) (command : Nat) (p : List Nat) :
    getByte (buildFrame r e command).frame 0 = 0xA7 ∧
      getByte (clearFrame r command) 0 = 0xA7 ∧
      getByte (obfuscate p) 0 = getByte p 0 := by
  refine ⟨?_, ?_, getByte_obfuscate_zero p⟩
  · show getByte (obfuscate (clearFrame r command)) 0 = 0xA7
    rw [getByte_obfuscate_zero, clearFrame_eq]
    rfl
  · rw [clearFrame_eq]
    rfl

/-- C12: for every command string whose first character, once upper-cased, is none of
'U', 'D', 'P' (so in particular when it is none of 'U', 'D', 'M', 'P'; the empty string, read
as the character 0, among them), `move` selects the command code 0x1 and does from the same
state exactly what it does for "M" and for "MY": same frame, same calls, same rolling code and
EEPROM afterwards. -/
theorem C12_unrecognized_is_my (r : SomfyRemote) (e : Store) (command : List Char)
    (hU : (command.map Char.toUpper).headD (Char.ofNat 0) ≠ 'U')
    (hD : (command.map Char.toUpper).headD (Char.ofNat 0) ≠ 'D')
    (hP : (command.map Char.toUpper).headD (Char.ofNat 0) ≠ 'P') :
    commandCode command = 0x1 ∧
      move r e command = move r e ['M'] ∧
      move r e command = move r e ['M', 'Y'] ∧
      move r e [] = move r e ['M'] ∧
      (move r e command).trace = (move r e ['M']).trace := by
  have h := commandCode_other command hU hD hP
  have h1 : move r e command = move r e ['M'] := move_commandCode r e _ _ (by rw [h]; decide)
  exact ⟨h, h1, move_commandCode r e _ _ (by rw [h]; decide),
    move_commandCode r e _ _ (by decide), by rw [h1]⟩

/-- Witness of C12: the command string "X". -/
theorem C12_unrecognized_is_my_witness :
    commandCode ['X'] = 0x1 ∧
      (move ⟨"blind", 0x123456, 0, 0⟩ (fun _ => 0) ['X']).trace
        = (move ⟨"blind", 0x123456, 0, 0⟩ (fun _ => 0) ['M']).trace :=
  have h := C12_unrecognized_is_my ⟨"blind", 0x123456, 0, 0⟩ (fun _ => 0) ['X']
    (by decide) (by decide) (by decide)
  ⟨h.1, h.2.2.2.2⟩


/-- C13: the command code chosen by `move` depends only on the upper-cased first character of
the command string: 'U' or 'u' gives 0x2, 'D' or 'd' gives 0x4, 'M' or 'm' gives 0x1, 'P' or
'p' gives 0x8, whatever characters follow; so "up", "U" and "UP" make `move` do the same from
the same state. -/
theorem C13_first_character (r : SomfyRemote) (e : Store) (c d : Char)
    (rest tail : List Char) (h : c.toUpper = d.toUpper) :
    commandCode (c :: rest) = commandCode (d :: tail) ∧
      commandCode ('U' :: rest) = 0x2 ∧ commandCode ('u' :: rest) = 0x2 ∧
      commandCode ('D' :: rest) = 0x4 ∧ commandCode ('d' :: rest) = 0x4 ∧
      commandCode ('M' :: rest) = 0x1 ∧ commandCode ('m' :: rest) = 0x1 ∧
      commandCode ('P' :: rest) = 0x8 ∧ commandCode ('p' :: rest) = 0x8 ∧
      move r e ['u', 'p'] = move r e ['U'] ∧
      move r e ['U', 'P'] = move r e ['U'] ∧
      (move r e (c :: rest)).trace = (move r e (d :: tail)).trace := by
  refine ⟨commandCode_toUpper c d rest tail h, rfl, rfl, rfl, rfl, rfl, rfl, rfl, rfl,
    move_commandCode r e _ _ rfl, move_commandCode r e _ _ rfl, ?_⟩
  rw [move_commandCode r e _ _ (commandCode_toUpper c d rest tail h)]

/-- Witness of C13: "up" and "UP". -/
theorem C13_first_character_witness :
    commandCode ['u', 'p'] = commandCode ['U', 'P'] ∧ commandCode ['u', 'p'] = 0x2 :=
  have h := C13_first_character ⟨"blind", 0x123456, 0, 0⟩ (fun _ => 0) 'u' 'U' ['p'] ['P']
    (by decide)
  ⟨h.1, h.2.2.1⟩

/-- C14: `getRollingCode` always returns: when the counter stored in the slot is 0 it sets
the rolling code to 1, and when the stored counter is a 16-bit value `v` other than 0 it sets
the rolling code to exactly `v`. -/
theorem C14_load_rolling_code (r : SomfyRemote) (e : Store) (v : Nat) (hv : v < 65536) :
    (getRollingCode r e).rollingCode
        = (if eepromGet e r.eepromAddress = 0 then 1 else eepromGet e r.eepromAddress) ∧
      (getRollingCode r (eepromPut e r.eepromAddress 0)).rollingCode = 1 ∧
      (getRollingCode r (eepromPut e r.eepromAddress v)).rollingCode
        = (if v = 0 then 1 else v) := by
  refine ⟨getRollingCode_rollingCode r e, ?_, ?_⟩
  · rw [getRollingCode_rollingCode, eepromGet_eepromPut]
    rfl
  · rw [getRollingCode_rollingCode, eepromGet_eepromPut, Nat.mod_eq_of_lt hv]

/-- Witness of C14: the stored counter 0x1234. -/
theorem C14_load_rolling_code_witness :
    (getRollingCode ⟨"blind", 0x123456, 0, 8⟩
      (eepromPut (fun _ => 0xFF) 8 0x1234)).rollingCode = 0x1234 :=
  (C14_load_rolling_code ⟨"blind", 0x123456, 0, 8⟩ (fun _ => 0xFF) 0x1234 (by decide)).2.2

/-- C15 (the code on a blank EEPROM): when every byte reads 0xFF, `getRollingCode` loads
0xFFFF, not 1; the first frame carries 0xFF 0xFF in bytes 2..3 before obfuscation, and the
first `move` leaves the rolling code 0 in the object and in the slot. -/
theorem C15_blank_slot_loads_ffff (r : SomfyRemote) (command : List Char) :
    eepromGet (fun _ => 0xFF) r.eepromAddress = 0xFFFF ∧
      (getRollingCode r (fun _ => 0xFF)).rollingCode = 0xFFFF ∧
      getByte (clearFrame (getRollingCode r (fun _ => 0xFF)) (commandCode command)) 2 = 0xFF ∧
      getByte (clearFrame (getRollingCode r (fun _ => 0xFF)) (commandCode command)) 3 = 0xFF ∧
      (move r (fun _ => 0xFF) command).remote.rollingCode = 0 ∧
      eepromGet (move r (fun _ => 0xFF) command).store r.eepromAddress = 0 := by
  have hget : eepromGet (fun _ => 0xFF) r.eepromAddress = 0xFFFF := by
    simp [eepromGet]
  have hrc : (getRollingCode r (fun _ => 0xFF)).rollingCode = 0xFFFF := by
    rw [getRollingCode_rollingCode, hget]
    rfl
  refine ⟨hget, hrc, ?_, ?_, ?_, ?_⟩
  · rw [clearFrame_eq, hrc]
    rfl
  · rw [clearFrame_eq, hrc]
    rfl
  · rw [move_rollingCode, hrc]
  · rw [move_store, eepromGet_eepromPut, hrc]

/-- C16: in every call of `move` the order of effects is: `EEPROM.begin`, the read of the
storage slot, the building of the frame (whose `EEPROM.put` changes the RAM copy of the
EEPROM only), `SetTx`, the three frames, `setSidle`, and only then `EEPROM.commit`, which
writes the new rolling code to the storage slot: after any number of the calls that precede
the commit the persisted content is still the initial one, and after the commit the slot
holds the incremented rolling code. -/
theorem C16_order_of_effects (r : SomfyRemote) (e ram : Store) (command : List Char)
    (k : Nat) :
    (move r e command).trace =
      [Event.eepromBegin, Event.eepromGet r.eepromAddress]
        ++ (buildFrame (getRollingCode r e) e (commandCode command)).trace
        ++ [Event.setTx,
            Event.sendCommand (buildFrame (getRollingCode r e) e (commandCode command)).frame 2,
            Event.sendCommand (buildFrame (getRollingCode r e) e (commandCode command)).frame 7,
            Event.sendCommand (buildFrame (getRollingCode r e) e (commandCode command)).frame 7,
            Event.setSidle, Event.eepromCommit] ∧
      (buildFrame (getRollingCode r e) e (commandCode command)).trace
        = [Event.eepromPut r.eepromAddress (((getRollingCode r e).rollingCode + 1) % 65536)] ∧
      (move r e command).trace.getLast? = some Event.eepromCommit ∧
      ([Event.eepromBegin].foldl eepromStep { ram := ram, flash := e }).ram = e ∧
      persisted e ram ((move r e command).trace.dropLast.take k) = e ∧
      persisted e ram (move r e command).trace.dropLast = e ∧
      persisted e ram (move r e command).trace = (move r e command).store ∧
      eepromGet (persisted e ram (move r e command).trace) r.eepromAddress
        = ((getRollingCode r e).rollingCode + 1) % 65536 := by
  have ht : (buildFrame (getRollingCode r e) e (commandCode command)).trace
      = [Event.eepromPut r.eepromAddress (((getRollingCode r e).rollingCode + 1) % 65536)] := by
    show [Event.eepromPut (getRollingCode r e).eepromAddress _] = _
    rw [getRollingCode_eepromAddress]
  have hno : Event.eepromCommit ∉ (move r e command).trace.dropLast := by
    rw [move_trace]
    simp [List.dropLast]
  have hfull : persisted e ram (move r e command).trace = (move r e command).store := by
    rw [move_store, move_trace]
    rfl
  refine ⟨?_, ht, ?_, rfl, ?_, ?_, hfull, ?_⟩
  · rw [ht, move_trace]
    rfl
  · rw [move_trace]
    rfl
  · exact flash_foldl_eepromStep _ _ (fun h => hno (List.mem_of_mem_take h))
  · exact flash_foldl_eepromStep _ _ hno
  · rw [hfull, move_store, eepromGet_eepromPut, Nat.mod_mod]

/-- C17: for a remote with slot `s`, every command and every EEPROM content, `move` leaves
every byte outside the region `[s, s + 4)` of the EEPROM as it was, and leaves the name, the
remote address and the slot index of the remote unchanged. -/
theorem C17_frame_of_move (r : SomfyRemote) (e : Store) (command : List Char) (a : Nat)
    (ha : a < r.eepromAddress ∨ r.eepromAddress + 4 ≤ a) :
    (move r e command).store a = e a ∧
      (move r e command).remote.name = r.name ∧
      (move r e command).remote.remoteCode = r.remoteCode ∧
      (move r e command).remote.eepromAddress = r.eepromAddress := by
  have hname : (getRollingCode r e).name = r.name := by
    simp only [getRollingCode]
    split <;> rfl
  have hcode : (getRollingCode r e).remoteCode = r.remoteCode := by
    simp only [getRollingCode]
    split <;> rfl
  refine ⟨?_, hname, hcode, move_eepromAddress r e command⟩
  rw [move_store]
  have h1 : a ≠ r.eepromAddress := by omega
  have h2 : a ≠ r.eepromAddress + 1 := by omega
  simp only [eepromPut, if_neg h1, if_neg h2]

/-- Witness of C17: slot 8, the byte at address 12. -/
theorem C17_frame_of_move_witness :
    (move ⟨"blind", 0x123456, 0, 8⟩ (fun a => a) ['D']).store 12 = 12 :=
  (C17_frame_of_move ⟨"blind", 0x123456, 0, 8⟩ (fun a => a) ['D'] 12 (by decide)).1

/-- C18: for any number of `SomfyRemote` instances constructed in sequence, with any names
and remote codes, every slot handed out by `getNextEepromAddress` is a multiple of 4 and its
4-byte region ends at or before 256, hence inside the smallest EEPROM of 512 bytes. -/
theorem C18_slot_in_range (args : List (String × Nat)) (r : SomfyRemote)
    (hr : r ∈ constructAll 0 args) :
    r.eepromAddress % 4 = 0 ∧ r.eepromAddress + 4 ≤ 256 ∧ r.eepromAddress + 4 ≤ 512 := by
  have h := constructAll_inv args 0 rfl r hr
  exact ⟨h.1, h.2, by omega⟩

/-- Witness of C18: the second of two instances, which receives slot 4. -/
theorem C18_slot_in_range_witness :
    (⟨"bedroom", 0x123457, 0, 4⟩ : SomfyRemote)
        ∈ constructAll 0 [("kitchen", 0x123456), ("bedroom", 0x123457)] ∧
      (4 : Nat) % 4 = 0 ∧ 4 + 4 ≤ 256 ∧ 4 + 4 ≤ 512 :=
  ⟨List.mem_cons_of_mem _ (List.mem_cons_self _ _),
    C18_slot_in_range [("kitchen", 0x123456), ("bedroom", 0x123457)]
      ⟨"bedroom", 0x123457, 0, 4⟩ (List.mem_cons_of_mem _ (List.mem_cons_self _ _))⟩

/-- C19: for every EEPROM content and every command, the rolling code carried in bytes 2..3
of the frame `move` transmits (before obfuscation) is the one `getRollingCode` loaded and is
never 0; the same holds for every frame of every sequence of sends, although a send from the
stored counter 0xFFFF leaves 0 in the slot. -/
theorem C19_rolling_code_never_zero (r : SomfyRemote) (e : Store) (command : List Char)
    (commands : List (List Char)) (frame : List Nat)
    (hframe : frame ∈ sentFrames (moveAll r e commands)) :
    rollingCodeOf frame ≠ 0 ∧
      sentFrames (move r e command).trace
        = [(buildFrame (getRollingCode r e) e (commandCode command)).frame,
           (buildFrame (getRollingCode r e) e (commandCode command)).frame,
           (buildFrame (getRollingCode r e) e (commandCode command)).frame] ∧
      rollingCodeOf (buildFrame (getRollingCode r e) e (commandCode command)).frame
        = (getRollingCode r e).rollingCode ∧
      (getRollingCode r e).rollingCode ≠ 0 ∧
      eepromGet (move r (eepromPut e r.eepromAddress 0xFFFF) command).store r.eepromAddress
        = 0 := by
  have h1 := rollingCodeOf_moveAll commands r e frame hframe
  refine ⟨by omega, sentFrames_move r e command, rollingCodeOf_move r e command, ?_, ?_⟩
  · have := (getRollingCode_pos r e).1
    omega
  · rw [move_store, eepromGet_eepromPut, getRollingCode_rollingCode, eepromGet_eepromPut]
    rfl

/-- Witness of C19: two sends from the stored counter 0xFFFF; the frames carry 0xFFFF and
then 1. -/
theorem C19_rolling_code_never_zero_witness :
    (sentFrames (moveAll ⟨"blind", 0x123456, 0, 0⟩ (fun _ => 0xFF) [['U'], ['D']])).map
        rollingCodeOf = [0xFFFF, 0xFFFF, 0xFFFF, 1, 1, 1] ∧
      rollingCodeOf [0xA7, 0xE8, 0xE8, 0xE9, 0xFB, 0xCF, 0x99] ≠ 0 :=
  ⟨by decide,
    (C19_rolling_code_never_zero ⟨"blind", 0x123456, 0, 0⟩ (fun _ => 0xFF) ['U']
      [['U'], ['D']] [0xA7, 0xE8, 0xE8, 0xE9, 0xFB, 0xCF, 0x99] (by decide)).1⟩

/-- C20 (as stated, refuted): with sync count 2, `sendCommand` requests a hold of 89565
microseconds, which exceeds 65535. -/
theorem C20_wake_up_silence_exceeds_16_bits :
    (LOW, 89565) ∈ sendCommand [0xA7, 0x8E, 0x8E, 0x8F, 0x9D, 0xA9, 0xFF] 2 ∧
      ¬ (∀ p ∈ sendCommand [0xA7, 0x8E, 0x8E, 0x8F, 0x9D, 0xA9, 0xFF] 2, p.2 ≤ 65535) := by
  decide

/-- C20 (amended): for every frame and every sync count, every hold duration requested by
`sendCommand` and `sendBit` is at most 89565 microseconds; all are at most 30415, hence below
65536, except the wake-up silence of 89565 sent when the sync count is 2, which exceeds
65535. -/
theorem C20_hold_durations (frame : List Nat) (n : Nat) (p : Pulse)
    (hp : p ∈ sendCommand frame n) :
    p.2 ≤ 89565 ∧
      (p ≠ (LOW, 89565) → p.2 ≤ 30415) ∧
      (65535 < p.2 → n = 2 ∧ p = (LOW, 89565)) ∧
      (n ≠ 2 → p.2 ≤ 30415) ∧
      (∀ v, ∀ q ∈ sendBit v, q.2 = 604) ∧
      (LOW, 89565) ∈ sendCommand frame 2 := by
  have hw : (LOW, 89565) ∈ sendCommand frame 2 := by
    rw [sendCommand_eq]
    simp
  have hbit : ∀ v, ∀ q ∈ sendBit v, q.2 = 604 := by
    intro v q hq
    simp only [sendBit, symbol, List.mem_cons, List.mem_singleton, List.not_mem_nil,
      or_false] at hq
    rcases hq with h | h <;> rw [h]
  rcases mem_sendCommand_duration frame n p hp with ⟨hn, h | h⟩ | h
  · rw [h]
    exact ⟨by decide, fun _ => by decide, fun hlt => absurd hlt (by decide),
      fun hne => absurd hn hne, hbit, hw⟩
  · rw [h]
    exact ⟨by decide, fun hne => absurd rfl hne, fun _ => ⟨hn, rfl⟩,
      fun hne => absurd hn hne, hbit, hw⟩
  · exact ⟨by omega, fun _ => h, fun hlt => by omega, fun _ => h, hbit, hw⟩

/-- Witness of C20: the software-sync pulse of a frame sent with sync count 7. -/
theorem C20_hold_durations_witness :
    (4550 : Nat) ≤ 89565 ∧
      (HIGH, 4550) ∈ sendCommand [0xA7, 0x8E, 0x8E, 0x8F, 0x9D, 0xA9, 0xFF] 7 :=
  ⟨(C20_hold_durations [0xA7, 0x8E, 0x8E, 0x8F, 0x9D, 0xA9, 0xFF] 7 (HIGH, 4550)
      (by decide)).1, by decide⟩

end Somfy
